import Mathlib

/-!
Verification of the aiace bulk downloader core.

Shallow embedding of `src/bulk_downloader/utils.py` (class `Dataset`) and the
corresponding parts of `src/main.py`.

Modelling conventions:

* A calendar date is an integer (number of days since an arbitrary epoch);
  `date - timedelta(days=n)` becomes integer subtraction.
* The calendar widget is a pure environment `view : ℤ → List DateAvail` giving
  the rows that `scan_visible_dates` would collect when the view is scrolled to
  month offset `m`; `goto_prev_month n` moves the offset from `m` to `m - n`.
* Unbounded `while` loops are run on explicit fuel; exhaustion is reported as a
  distinct outcome (`fuelOut` / `none`), and theorems supply enough fuel.
* A Python exception is an explicit error value (`Except.error` or a dedicated
  constructor such as `indexError`).
-/

/-- Embedding of the `DateAvail` namedtuple
(`DateAvail = namedtuple("DateAvail", ["element", "date", "available"])`,
utils.py line 15).  The opaque WebDriver element handle is modelled by the
generation number of the page snapshot that produced it. -/
structure DateAvail where
  element : ℕ
  date : ℤ
  available : Bool
deriving DecidableEq

/-- Embedding of `Dataset.goto_prev_month` (utils.py lines 244-257) acting on
the month offset of the calendar view: clicking the previous-month button `n`
times moves the view back by `n` months. -/
def goto_prev_month (m : ℤ) (n : ℕ) : ℤ :=
  m - n

/-- Embedding of `Dataset.scan_visible_dates` (utils.py lines 182-217).  The
rows collected from the visible page are the input; the result is the
availability table together with the number of available dates
(`len(availability_df.query("available==True"))`).  When the page yields no
rows, `pd.DataFrame([]).set_index("date")` raises a `KeyError` (the empty frame
has no `date` column), modelled by `Except.error ()`. -/
def scan_visible_dates (page : List DateAvail) : Except Unit (List DateAvail × ℕ) :=
  if page.isEmpty then Except.error ()
  else Except.ok (page, (page.filter (fun r => r.available)).length)

/-- Outcome of the `while` loop of `Dataset.scan_all_dates`
(utils.py lines 231-236). -/
inductive LoopResult where
  /-- Loop finished: accumulated rows, final month offset, number of page reads. -/
  | ok (recs : List DateAvail) (finalOffset : ℤ) (reads : ℕ)
  /-- A call of `scan_visible_dates` raised. -/
  | scanError
  /-- Fuel was exhausted before the loop found a page with zero available dates. -/
  | fuelOut
deriving DecidableEq

/-- Embedding of the loop of `Dataset.scan_all_dates` (utils.py lines 231-236):
`while (n_available_dates): availability_df, n = scan_visible_dates();
total_availability_df_arr.append(availability_df); goto_prev_month(2)`.
The accumulated array is returned concatenated, in page order, exactly as
`pd.concat(total_availability_df_arr, axis=0)` stacks the frames. -/
def scanAllLoop (view : ℤ → List DateAvail) : ℤ → ℕ → LoopResult
  | _, 0 => LoopResult.fuelOut
  | m, fuel + 1 =>
    match scan_visible_dates (view m) with
    | Except.error _ => LoopResult.scanError
    | Except.ok (df, n) =>
      if n = 0 then
        LoopResult.ok df (goto_prev_month m 2) 1
      else
        match scanAllLoop view (goto_prev_month m 2) fuel with
        | LoopResult.ok recs m2 r => LoopResult.ok (df ++ recs) m2 (r + 1)
        | e => e

/-- Result of `Dataset.scan_all_dates` (utils.py lines 219-242). -/
inductive ScanResult where
  /-- Sorted list of available dates, final month offset, number of page reads. -/
  | ok (dates : List ℤ) (finalOffset : ℤ) (reads : ℕ)
  | scanError
  | fuelOut
deriving DecidableEq

/-- Dates of the rows marked available, in accumulation order:
`list(total_availability_df.query("available==True").index)`
(utils.py line 238).  `pd.concat` keeps duplicate index entries, so a date
appearing in two page snapshots appears twice here. -/
def availableDatesOf (recs : List DateAvail) : List ℤ :=
  (recs.filter (fun r => r.available)).map (fun r => r.date)

/-- Embedding of `Dataset.scan_all_dates` (utils.py lines 219-242): run the
scan loop, collect the dates of the available rows and sort them ascending
(`self.available_dates.sort()`, line 240). -/
def scan_all_dates (view : ℤ → List DateAvail) (m : ℤ) (fuel : ℕ) : ScanResult :=
  match scanAllLoop view m fuel with
  | LoopResult.ok recs m2 r =>
      ScanResult.ok (List.insertionSort (fun a b => a ≤ b) (availableDatesOf recs)) m2 r
  | LoopResult.scanError => ScanResult.scanError
  | LoopResult.fuelOut => ScanResult.fuelOut

/-- Dates present in the index of an availability table (`availability_df.loc`
succeeds exactly when the date occurs in the `date` index). -/
def dfDates (df : List DateAvail) : List ℤ :=
  df.map (fun r => r.date)

/-- Embedding of `Dataset.choose_date_interval` (utils.py lines 265-296).
Parameters follow the source: `current_date` is the newer endpoint clicked
first, `next_date` the older endpoint clicked second.  The first action
(utils.py line 285) is `availability_df, _ = self.scan_visible_dates()`,
outside the `try` block: on a zero-row page that call raises (see
`scan_visible_dates`) and the raise is fatal before any endpoint lookup.
The `try` block then clicks `availability_df.loc[current_date]` and
`availability_df.loc[next_date]`; a `KeyError` from either lookup falls into
the handler (utils.py lines 290-293), which pages back one month, re-scans
(this re-scan is the same `scan_visible_dates`, so on a zero-row page it
raises out of the handler as well) and clicks only `next_date` (the
`current_date` click in the handler is commented out in the source).  A
`KeyError` from this second lookup propagates.  Every fatal exception is
modelled by `Except.error ()`; the result collects the dates that were
actually clicked and the final month offset. -/
def choose_date_interval (view : ℤ → List DateAvail) (m : ℤ)
    (current_date next_date : ℤ) : Except Unit (List ℤ × ℤ) :=
  match scan_visible_dates (view m) with
  | Except.error _ => Except.error ()
  | Except.ok (df, _) =>
    if current_date ∈ dfDates df then
      if next_date ∈ dfDates df then
        Except.ok ([current_date, next_date], m)
      else
        match scan_visible_dates (view (goto_prev_month m 1)) with
        | Except.error _ => Except.error ()
        | Except.ok (df2, _) =>
          if next_date ∈ dfDates df2 then
            Except.ok ([current_date, next_date], goto_prev_month m 1)
          else Except.error ()
    else
      match scan_visible_dates (view (goto_prev_month m 1)) with
      | Except.error _ => Except.error ()
      | Except.ok (df2, _) =>
        if next_date ∈ dfDates df2 then
          Except.ok ([next_date], goto_prev_month m 1)
        else Except.error ()

/-- Embedding of the block loop of `Dataset.download_iteration`
(utils.py lines 333-355): starting from cursor `c`,
`while (next_date > available_dates[0])` with `next_date = c - block_size`,
one block `(current_date, next_date)` is selected and downloaded per
iteration and the cursor advances to `next_date`.  Returns the emitted
blocks and the final cursor, or `none` on fuel exhaustion. -/
def downloadLoop (minD bs : ℤ) : ℤ → ℕ → Option (List (ℤ × ℤ) × ℤ)
  | _, 0 => none
  | c, fuel + 1 =>
    if c - bs > minD then
      match downloadLoop minD bs (c - bs) fuel with
      | some (bl, cf) => some ((c, c - bs) :: bl, cf)
      | none => none
    else
      some ([], c)

/-- Outcome of `Dataset.download_iteration` (utils.py lines 298-359). -/
inductive IterResult where
  /-- Blocks processed by the loop, and the final flush selection
  `(last cursor, minimum date)` passed to `choose_date_interval`
  at utils.py line 359. -/
  | ok (blocks : List (ℤ × ℤ)) (flush : ℤ × ℤ)
  /-- The read `self.available_dates[-1]` raised `IndexError`
  (empty available-date list, utils.py line 334). -/
  | indexError
  | fuelOut
deriving DecidableEq

/-- Embedding of `Dataset.download_iteration` (utils.py lines 298-359):
`current_date = available_dates[-1]` (raises `IndexError` on an empty list),
`next_date = current_date - timedelta(days=block_size)`, the block loop, then
the final flush `choose_date_interval(current_date, available_dates[0])`
(line 359).  The list is the sorted output of `scan_all_dates`, so its last
element is the maximum and its first the minimum. -/
def download_iteration (available_dates : List ℤ) (block_size : ℤ) (fuel : ℕ) :
    IterResult :=
  match available_dates.getLast?, available_dates.head? with
  | some c0, some minD =>
    match downloadLoop minD block_size c0 fuel with
    | some (bl, cf) => IterResult.ok bl (cf, minD)
    | none => IterResult.fuelOut
  | _, _ => IterResult.indexError

/-- Embedding of `Dataset.dl_check` (utils.py lines 361-371).  Each poll reads
the `.download` elements of the monitor page and computes
`[bool(e.get_attribute("state")) for e in elements]`; the observation
`obs i : List Bool` is that list at the `i`-th poll (an element is `true` when
its `state` attribute is non-empty).  The loop breaks when
`any(download_states)` is true, and otherwise sleeps one second and repeats.
The returned value is the index of the poll at which the loop broke, which is
also the number of one-second sleeps performed; `none` models a run that has
not broken within `fuel` polls. -/
def dlCheckAux (obs : ℕ → List Bool) : ℕ → ℕ → Option ℕ
  | _, 0 => none
  | i, fuel + 1 =>
    if (obs i).any id then some i
    else dlCheckAux obs (i + 1) fuel

/-- Embedding of `Dataset.dl_check` (utils.py lines 361-371), starting the
poll sequence at index 0. -/
def dl_check (obs : ℕ → List Bool) (fuel : ℕ) : Option ℕ :=
  dlCheckAux obs 0 fuel

/-- Concatenation of the page snapshots read by `scan_all_dates`, in scan
order, when `r` pages are read starting at month offset `m` (the view moves
back two months between reads).  This is the expected content of
`pd.concat(total_availability_df_arr, axis=0)`. -/
def pagesConcat (view : ℤ → List DateAvail) (m : ℤ) : ℕ → List DateAvail
  | 0 => []
  | r + 1 => view m ++ pagesConcat view (m - 2) r

/-- Click event in the handle-lifetime model: `snap` is the generation of the
page snapshot that produced the clicked handle, `cur` the generation of the
interactive surface at the moment of the click.  A navigation (pagination,
dialog submission, dialog reopen) increments the generation and invalidates
all handles of earlier generations, so a click is on a live handle exactly
when `snap = cur`. -/
structure ClickEv where
  snap : ℕ
  cur : ℕ
deriving DecidableEq

/-- Handle-lifetime instrumentation of `Dataset.choose_date_interval`
(utils.py lines 265-296).  The visible dates are indexed by snapshot
generation (`view g` is what `scan_visible_dates` reads into the snapshot of
generation `g`); `goto_prev_month(1)` moves to generation `g + 1`.  Each click
is recorded with the generation of the snapshot it came from and the current
generation: the `try` block clicks `current_date` and `next_date` from the
snapshot just taken, and the `except` handler re-scans after paging back and
clicks `next_date` from the fresh snapshot. -/
def choose_date_interval_ev (view : ℕ → List ℤ) (g : ℕ) (current_date next_date : ℤ) :
    Except Unit (List ClickEv × ℕ) :=
  let df := view g
  if current_date ∈ df then
    if next_date ∈ df then
      Except.ok ([⟨g, g⟩, ⟨g, g⟩], g)
    else
      let g2 := g + 1
      if next_date ∈ view g2 then
        Except.ok ([⟨g, g⟩, ⟨g2, g2⟩], g2)
      else Except.error ()
  else
    let g2 := g + 1
    if next_date ∈ view g2 then
      Except.ok ([⟨g2, g2⟩], g2)
    else Except.error ()

/-- Handle-lifetime instrumentation of `Dataset.download_iteration`
(utils.py lines 333-359).  Per loop iteration: `choose_date_interval` clicks
the two endpoints, the update and download buttons are located and clicked in
the current snapshot (two fresh `find_element` calls, utils.py lines 339-344),
and then the submission closes the dialog, `dl_check` switches windows and
`open_dl_dialog`/`open_calendar` rebuild the view, all of which invalidates
every stored handle: the generation is incremented before the next iteration
scans a fresh snapshot.  After the loop the tail pages back one month
(generation increment) and runs `choose_date_interval` once more, which
re-scans before clicking (utils.py lines 358-359). -/
def download_iteration_ev (view : ℕ → List ℤ) (minD bs : ℤ) :
    ℤ → ℕ → ℕ → Option (Except Unit (List ClickEv × ℕ))
  | _, _, 0 => none
  | c, g, fuel + 1 =>
    if c - bs > minD then
      match choose_date_interval_ev view g c (c - bs) with
      | Except.error _ => some (Except.error ())
      | Except.ok (evs, g1) =>
        match download_iteration_ev view minD bs (c - bs) (g1 + 1) fuel with
        | some (Except.ok (evs2, gf)) =>
            some (Except.ok (evs ++ [⟨g1, g1⟩, ⟨g1, g1⟩] ++ evs2, gf))
        | r => r
    else
      match choose_date_interval_ev view (g + 1) c minD with
      | Except.error _ => some (Except.error ())
      | Except.ok (evs, gf) => some (Except.ok (evs, gf))

/-! ## Lemmas about the completion poller -/

lemma dlCheckAux_eq_some (obs : ℕ → List Bool) :
    ∀ (fuel i j : ℕ), dlCheckAux obs i fuel = some j ↔
      (i ≤ j ∧ j < i + fuel ∧ (obs j).any id = true ∧
        ∀ k, i ≤ k → k < j → (obs k).any id = false) := by
  intro fuel
  induction fuel with
  | zero =>
    intro i j
    simp only [dlCheckAux]
    constructor
    · intro h; cases h
    · rintro ⟨h1, h2, -, -⟩; omega
  | succ fuel ih =>
    intro i j
    simp only [dlCheckAux]
    by_cases hi : (obs i).any id = true
    · rw [if_pos hi]
      constructor
      · intro h
        have hij : i = j := Option.some.inj h
        subst hij
        exact ⟨le_refl i, by omega, hi, fun k hk1 hk2 => by omega⟩
      · rintro ⟨h1, h2, h3, h4⟩
        have : i = j := by
          by_contra hne
          have : i < j := by omega
          have := h4 i (le_refl i) this
          rw [hi] at this
          cases this
        subst this
        rfl
    · rw [if_neg hi]
      rw [ih (i + 1) j]
      constructor
      · rintro ⟨h1, h2, h3, h4⟩
        refine ⟨by omega, by omega, h3, fun k hk1 hk2 => ?_⟩
        by_cases hk : k = i
        · subst hk
          exact Bool.not_eq_true _ ▸ (by simpa using hi)
        · exact h4 k (by omega) hk2
      · rintro ⟨h1, h2, h3, h4⟩
        have hij : i ≠ j := by
          intro h
          subst h
          rw [h3] at hi
          exact hi rfl
        exact ⟨by omega, by omega, h3, fun k hk1 hk2 => h4 k (by omega) hk2⟩

lemma dlCheckAux_none_of_all_empty (obs : ℕ → List Bool) (h : ∀ i, obs i = []) :
    ∀ fuel i, dlCheckAux obs i fuel = none := by
  intro fuel
  induction fuel with
  | zero => intro i; rfl
  | succ fuel ih =>
    intro i
    simp only [dlCheckAux, h i, List.any_nil]
    exact ih (i + 1)

/-! ## Claim theorems: completion poller (C2, C9) -/

/-- Claim C2, counterexample to the claim as stated: at the very first poll
the monitor lists two transfers, one with a non-empty `state` attribute and
one without; `dl_check` nevertheless returns (at poll 0, after zero sleeps),
so it does not wait for *every* tracked transfer to report a terminal state. -/
theorem dl_check_returns_with_pending_transfer :
    dl_check (fun _ => [true, false]) 1 = some 0 ∧
    ((fun _ : ℕ => [true, false]) 0).any id = true ∧
    ((fun _ : ℕ => [true, false]) 0).all id = false := by
  refine ⟨rfl, rfl, rfl⟩

/-- Claim C2 (amended): `dl_check` polls the monitor surface at a fixed
1-second interval (one sleep per failed poll, so a return at poll `j` means
`j` sleeps) with no timeout (any fuel bound beyond `j` is irrelevant: the
characterisation below does not depend on `fuel` except through `j < fuel`),
and it returns exactly at the first poll at which **at least one** tracked
transfer reports a non-empty `state` attribute; it never returns while no
tracked transfer reports a state. -/
theorem dl_check_first_any (obs : ℕ → List Bool) (fuel j : ℕ) :
    dl_check obs fuel = some j ↔
      (j < fuel ∧ (obs j).any id = true ∧ ∀ k, k < j → (obs k).any id = false) := by
  rw [dl_check, dlCheckAux_eq_some obs fuel 0 j]
  constructor
  · rintro ⟨-, h2, h3, h4⟩
    exact ⟨by omega, h3, fun k hk => h4 k (Nat.zero_le k) hk⟩
  · rintro ⟨h1, h2, h3⟩
    exact ⟨Nat.zero_le j, by omega, h2, fun k _ hk => h3 k hk⟩

/-- Claim C9: if the download monitor surface lists zero transfer records at
every poll, `dl_check` never returns: `any([])` is false, so the exit
condition is never satisfied and the loop sleeps and repeats for any number
of polls. -/
theorem dl_check_empty_never_returns (obs : ℕ → List Bool) (fuel : ℕ)
    (h : ∀ i, obs i = []) : dl_check obs fuel = none := by
  rw [dl_check]
  exact dlCheckAux_none_of_all_empty obs h fuel 0

/-- Witness for C9 at a concrete input: the observation stream is constantly
empty and the poller makes no progress within 5 polls. -/
theorem dl_check_empty_never_returns_witness :
    dl_check (fun _ => []) 5 = none :=
  dl_check_empty_never_returns (fun _ => []) 5 (fun _ => rfl)

/-! ## Lemmas about the availability scanner -/

lemma scan_visible_dates_ok_elim (page df : List DateAvail) (n : ℕ)
    (h : scan_visible_dates page = Except.ok (df, n)) :
    df = page ∧ n = (page.filter (fun r => r.available)).length ∧ page ≠ [] := by
  by_cases hp : page.isEmpty
  · rw [scan_visible_dates, if_pos hp] at h
    cases h
  · rw [scan_visible_dates, if_neg hp] at h
    simp only [Except.ok.injEq, Prod.mk.injEq] at h
    refine ⟨h.1.symm, h.2.symm, ?_⟩
    simpa [List.isEmpty_iff] using hp

lemma scanAllLoop_ok_elim (view : ℤ → List DateAvail) :
    ∀ (fuel : ℕ) (m : ℤ) (recs : List DateAvail) (m2 : ℤ) (r : ℕ),
      scanAllLoop view m fuel = LoopResult.ok recs m2 r →
      recs = pagesConcat view m r ∧ m2 = m - 2 * r ∧ 1 ≤ r := by
  intro fuel
  induction fuel with
  | zero =>
    intro m recs m2 r h
    cases h
  | succ fuel ih =>
    intro m recs m2 r h
    simp only [scanAllLoop] at h
    split at h
    · cases h
    · rename_i df n hsv
      obtain ⟨hdf, hn, hpage⟩ := scan_visible_dates_ok_elim (view m) df n hsv
      by_cases hn0 : n = 0
      · rw [if_pos hn0] at h
        injection h with h1 h2 h3
        subst h1 h2 h3
        refine ⟨?_, ?_, le_refl 1⟩
        · simp [pagesConcat, hdf]
        · simp [goto_prev_month]
      · rw [if_neg hn0] at h
        split at h
        · rename_i recs2 m3 r2 hrec
          injection h with h1 h2 h3
          subst h1 h2 h3
          obtain ⟨ih1, ih2, ih3⟩ := ih (goto_prev_month m 2) recs2 m3 r2 hrec
          have hgp : goto_prev_month m 2 = m - 2 := by simp [goto_prev_month]
          refine ⟨?_, ?_, by omega⟩
          · rw [ih1, hgp, hdf]
            cases r2 with
            | zero => omega
            | succ r3 => simp [pagesConcat]
          · rw [ih2, hgp]
            push_cast
            ring
        all_goals
          rename_i hrec
          exact (hrec recs m2 r h).elim

lemma scanAllLoop_terminates (view : ℤ → List DateAvail) :
    ∀ (P : ℕ) (m : ℤ) (fuel : ℕ),
      (∀ j : ℕ, j ≤ P → view (m - 2 * j) ≠ []) →
      (∀ j : ℕ, j < P → ((view (m - 2 * j)).filter (fun r => r.available)).length ≠ 0) →
      ((view (m - 2 * P)).filter (fun r => r.available)).length = 0 →
      P < fuel →
      scanAllLoop view m fuel =
        LoopResult.ok (pagesConcat view m (P + 1)) (m - 2 * (P + 1)) (P + 1) := by
  intro P
  induction P with
  | zero =>
    intro m fuel hne hpos hzero hfuel
    obtain ⟨fuel, rfl⟩ : ∃ f, fuel = f + 1 := ⟨fuel - 1, by omega⟩
    have hm : ¬(view m).isEmpty := by
      simp only [List.isEmpty_iff]
      simpa using hne 0 (le_refl 0)
    have hz : ((view m).filter (fun r => r.available)).length = 0 := by
      simpa using hzero
    simp only [scanAllLoop, scan_visible_dates, if_neg hm, hz, if_pos rfl]
    refine congrArg₂ (fun a b => LoopResult.ok a b 1) ?_ ?_
    · simp [pagesConcat]
    · simp [goto_prev_month]
  | succ P ih =>
    intro m fuel hne hpos hzero hfuel
    obtain ⟨fuel, rfl⟩ : ∃ f, fuel = f + 1 := ⟨fuel - 1, by omega⟩
    have hm : ¬(view m).isEmpty := by
      simp only [List.isEmpty_iff]
      simpa using hne 0 (by omega)
    have hn0 : ((view m).filter (fun r => r.available)).length ≠ 0 := by
      simpa using hpos 0 (by omega)
    have hshift : ∀ j : ℕ, m - 2 - 2 * (j : ℤ) = m - 2 * ((j : ℤ) + 1) := by
      intro j; ring
    have ihap := ih (m - 2) fuel
      (fun j hj => by
        rw [hshift j]
        have := hne (j + 1) (by omega)
        push_cast at this ⊢
        exact this)
      (fun j hj => by
        rw [hshift j]
        have := hpos (j + 1) (by omega)
        push_cast at this ⊢
        exact this)
      (by
        rw [hshift P]
        push_cast at hzero ⊢
        exact hzero)
      (by omega)
    have hgp : goto_prev_month m 2 = m - 2 := by simp [goto_prev_month]
    simp only [scanAllLoop, scan_visible_dates, if_neg hm, if_neg hn0, hgp, ihap]
    refine congrArg₂ (fun a b => LoopResult.ok a b (P + 1 + 1)) ?_ ?_
    · simp [pagesConcat]
    · push_cast
      ring

/-! ## Claim theorems: availability scanner (C5, C7, C3, C10) -/

/-- Claim C5: `scan_all_dates` stops exactly when a page scan yields zero
available dates.  If page `P` (0-indexed, at month offset `m - 2P`) is the
first whose scan yields zero available dates, the loop performs exactly
`P + 1` page reads, and after each page read it pages the calendar view back
by exactly 2 months: the final view offset is `m - 2(P + 1)`. -/
theorem scan_all_dates_reads (view : ℤ → List DateAvail) (m : ℤ) (P fuel : ℕ)
    (hne : ∀ j : ℕ, j ≤ P → view (m - 2 * j) ≠ [])
    (hpos : ∀ j : ℕ, j < P → ((view (m - 2 * j)).filter (fun r => r.available)).length ≠ 0)
    (hzero : ((view (m - 2 * P)).filter (fun r => r.available)).length = 0)
    (hfuel : P < fuel) :
    scan_all_dates view m fuel =
      ScanResult.ok (List.insertionSort (fun a b => a ≤ b)
        (availableDatesOf (pagesConcat view m (P + 1)))) (m - 2 * (P + 1)) (P + 1) := by
  rw [scan_all_dates, scanAllLoop_terminates view P m fuel hne hpos hzero hfuel]

/-- Witness for C5 at a concrete input: the page at offset 0 has one available
date and the page at offset -2 is all-unavailable, so the scan makes exactly
2 page reads and leaves the view at offset -4. -/
theorem scan_all_dates_reads_witness :
    scan_all_dates
      (fun k => if k = 0 then [⟨0, 3, true⟩] else [⟨1, 1, false⟩]) 0 5 =
      ScanResult.ok (List.insertionSort (fun a b => a ≤ b)
        (availableDatesOf (pagesConcat
          (fun k => if k = 0 then [⟨0, 3, true⟩] else [⟨1, 1, false⟩]) 0 2))) (-4) 2 := by
  have h := scan_all_dates_reads
    (fun k => if k = 0 then [⟨0, 3, true⟩] else [⟨1, 1, false⟩]) 0 1 5
    (by decide) (by decide) (by decide) (by decide)
  simpa using h

/-- Claim C7, counterexample to the claim as stated: two overlapping page
views both contain date 5 as available; `pd.concat` appends the duplicate
rather than overwriting it, so the resulting available-date list contains the
date twice and its keys are not unique. -/
theorem scan_all_dates_duplicate_keys :
    scan_all_dates
      (fun m => if m = 0 then [⟨0, 5, true⟩]
                else if m = -2 then [⟨1, 5, true⟩]
                else [⟨2, 1, false⟩]) 0 10 = ScanResult.ok [5, 5] (-6) 3 ∧
    ¬ ([(5 : ℤ), 5].Nodup) := by
  exact ⟨rfl, by decide⟩

/-- Claim C7 (amended): the accumulated availability index is the
concatenation of the successive page snapshots in scan order (duplicate dates
from overlapping views are appended, not overwritten), and the final
available-date structure is sorted ascending and is a permutation of the
dates of the available rows taken with multiplicity (so a date available in two
overlapping snapshots is listed twice; keys are unique only when no date
occurs in two snapshots). -/
theorem scan_all_dates_appends (view : ℤ → List DateAvail) (m : ℤ)
    (fuel : ℕ) (recs : List DateAvail) (m2 : ℤ) (r : ℕ)
    (h : scanAllLoop view m fuel = LoopResult.ok recs m2 r) :
    recs = pagesConcat view m r ∧
    scan_all_dates view m fuel =
      ScanResult.ok (List.insertionSort (fun a b => a ≤ b) (availableDatesOf recs)) m2 r ∧
    List.Sorted (fun a b : ℤ => a ≤ b)
      (List.insertionSort (fun a b => a ≤ b) (availableDatesOf recs)) ∧
    List.Perm (List.insertionSort (fun a b => a ≤ b) (availableDatesOf recs))
      (availableDatesOf recs) := by
  obtain ⟨h1, _, _⟩ := scanAllLoop_ok_elim view fuel m recs m2 r h
  refine ⟨h1, ?_, ?_, ?_⟩
  · rw [scan_all_dates, h]
  · exact List.sorted_insertionSort (fun a b => a ≤ b) (availableDatesOf recs)
  · exact List.perm_insertionSort (fun a b => a ≤ b) (availableDatesOf recs)

/-- Witness for C7 (amended) at a concrete input: a two-page scan with an
overlapping available date. -/
theorem scan_all_dates_appends_witness :
    [DateAvail.mk 0 5 true, DateAvail.mk 1 5 true, DateAvail.mk 2 1 false] =
      pagesConcat
        (fun m => if m = 0 then [⟨0, 5, true⟩]
                  else if m = -2 then [⟨1, 5, true⟩]
                  else [⟨2, 1, false⟩]) 0 3 := by
  have h := scan_all_dates_appends
    (fun m => if m = 0 then [⟨0, 5, true⟩]
              else if m = -2 then [⟨1, 5, true⟩]
              else [⟨2, 1, false⟩]) 0 10
    [⟨0, 5, true⟩, ⟨1, 5, true⟩, ⟨2, 1, false⟩] (-6) 3 (by rfl)
  exact h.1

/-- Claim C3, counterexample to the claim as stated: with one visible page
whose date cells are all unavailable, `scan_all_dates` does return the empty
list, but `download_iteration` does not exit cleanly: reading
`self.available_dates[-1]` raises `IndexError` on the empty list. -/
theorem scan_zero_dates_not_clean :
    scan_all_dates (fun _ => [⟨0, 1, false⟩]) 0 5 = ScanResult.ok [] (-2) 1 ∧
    download_iteration [] 3 10 = IterResult.indexError := by
  exact ⟨rfl, rfl⟩

/-- Claim C3 (amended): when zero available dates are discovered,
`scan_all_dates` returns an empty list, and `download_iteration` on that
empty list performs zero block iterations but raises an `IndexError` while
reading the maximum date `available_dates[-1]`, instead of exiting cleanly. -/
theorem scan_empty_then_download_raises (view : ℤ → List DateAvail) (m : ℤ)
    (fuel : ℕ) (recs : List DateAvail) (m2 : ℤ) (r : ℕ) (bs : ℤ) (fuel2 : ℕ)
    (h : scanAllLoop view m fuel = LoopResult.ok recs m2 r)
    (hempty : availableDatesOf recs = []) :
    scan_all_dates view m fuel = ScanResult.ok [] m2 r ∧
    download_iteration [] bs fuel2 = IterResult.indexError := by
  constructor
  · rw [scan_all_dates, h]
    show ScanResult.ok
      (List.insertionSort (fun a b => a ≤ b) (availableDatesOf recs)) m2 r =
      ScanResult.ok [] m2 r
    rw [hempty]
    rfl
  · rfl

/-- Witness for C3 (amended) at a concrete input. -/
theorem scan_empty_then_download_raises_witness :
    scan_all_dates (fun _ => [⟨0, 1, false⟩]) 0 5 = ScanResult.ok [] (-2) 1 ∧
    download_iteration [] 7 3 = IterResult.indexError :=
  scan_empty_then_download_raises (fun _ => [⟨0, 1, false⟩]) 0 5
    [⟨0, 1, false⟩] (-2) 1 7 3 (by rfl) (by rfl)

/-- Claim C10: `scan_visible_dates` on a view containing no date cells at all
raises (`pd.DataFrame([]).set_index("date")` fails on the column-less empty
frame) instead of returning an empty zero-available index, and consequently a
zero-available scan result can only come from a non-empty page whose date
cells are all marked unavailable. -/
theorem scan_visible_dates_zero_cells (page df : List DateAvail) (n : ℕ)
    (h : scan_visible_dates page = Except.ok (df, n)) (hn : n = 0) :
    scan_visible_dates [] = Except.error () ∧
    page ≠ [] ∧ ∀ rec ∈ page, rec.available = false := by
  obtain ⟨hdf, hlen, hpage⟩ := scan_visible_dates_ok_elim page df n h
  subst hn
  refine ⟨rfl, hpage, ?_⟩
  intro rec hrec
  have hfil : page.filter (fun r => r.available) = [] :=
    List.length_eq_zero.mp hlen.symm
  have := List.filter_eq_nil_iff.mp hfil rec hrec
  simpa using this

/-- Witness for C10 at a concrete input: a page with a single unavailable
date cell. -/
theorem scan_visible_dates_zero_cells_witness :
    scan_visible_dates [] = Except.error () ∧
    ([DateAvail.mk 0 1 false] : List DateAvail) ≠ [] := by
  have h := scan_visible_dates_zero_cells [⟨0, 1, false⟩] [⟨0, 1, false⟩] 0
    (by rfl) (by rfl)
  exact ⟨h.1, h.2.1⟩

/-! ## Claim theorems: endpoint selection (C4) -/

/-- Claim C4, counterexample to the claim as stated: the newer endpoint (10)
is missing from the visible page while the older endpoint (5) is present, yet
the call is fatal: the `KeyError` on `availability_df.loc[current_date]`
sends the code into the handler, which pages back one month and re-scans a
non-empty page that does not contain the older endpoint, so the handler
lookup `availability_df.loc[next_date]` raises.  A miss of the newer
endpoint is thus not always non-fatal. -/
theorem choose_date_interval_newer_miss_fatal :
    (10 : ℤ) ∉ dfDates
      ((fun k : ℤ => if k = 0 then [⟨0, 5, true⟩] else [⟨1, 3, true⟩]) 0) ∧
    (5 : ℤ) ∈ dfDates
      ((fun k : ℤ => if k = 0 then [⟨0, 5, true⟩] else [⟨1, 3, true⟩]) 0) ∧
    choose_date_interval
      (fun k : ℤ => if k = 0 then [⟨0, 5, true⟩] else [⟨1, 3, true⟩]) 0 10 5 =
      Except.error () := by
  exact ⟨by decide, by decide, rfl⟩

/-- Claim C4 (amended): a zero-row first view is fatal before any endpoint
lookup (the initial `scan_visible_dates` call at utils.py line 285 sits
outside the `try` block and raises, first conjunct).  Otherwise, when both
endpoints are in the currently visible page no navigation happens and both
are clicked (second conjunct); when either endpoint is missing from the
current view, `choose_date_interval` performs exactly one page-back-by-one-
month navigation and one re-scan and then attempts only the older endpoint
(`next_date`): the call raises if and only if the older endpoint is absent
from the re-scanned view — where a zero-row re-scanned view, on which the
re-scan itself raises, contains no dates and is covered by that equivalence
(third conjunct).  In particular, a second miss of the older endpoint is
fatal, and a miss of the newer endpoint is non-fatal exactly when the older
endpoint is found after the single page-back (fourth and fifth conjuncts). -/
theorem choose_date_interval_retry (view : ℤ → List DateAvail)
    (m current_date next_date : ℤ) :
    (view m = [] →
      choose_date_interval view m current_date next_date = Except.error ()) ∧
    (current_date ∈ dfDates (view m) → next_date ∈ dfDates (view m) →
      choose_date_interval view m current_date next_date =
        Except.ok ([current_date, next_date], m)) ∧
    (view m ≠ [] →
      (current_date ∉ dfDates (view m) ∨ next_date ∉ dfDates (view m)) →
      (choose_date_interval view m current_date next_date = Except.error () ↔
        next_date ∉ dfDates (view (m - 1)))) ∧
    (current_date ∈ dfDates (view m) → next_date ∉ dfDates (view m) →
      next_date ∈ dfDates (view (m - 1)) →
      choose_date_interval view m current_date next_date =
        Except.ok ([current_date, next_date], m - 1)) ∧
    (view m ≠ [] → current_date ∉ dfDates (view m) →
      next_date ∈ dfDates (view (m - 1)) →
      choose_date_interval view m current_date next_date =
        Except.ok ([next_date], m - 1)) := by
  have hgp : goto_prev_month m 1 = m - 1 := by simp [goto_prev_month]
  by_cases hvm : view m = []
  · have hch : choose_date_interval view m current_date next_date =
        Except.error () := by
      simp [choose_date_interval, scan_visible_dates, hvm]
    have hcmem : current_date ∉ dfDates (view m) := by simp [hvm, dfDates]
    exact ⟨fun _ => hch, fun hc _ => absurd hc hcmem, fun hne _ => absurd hvm hne,
      fun hc _ _ => absurd hc hcmem, fun hne _ _ => absurd hvm hne⟩
  · have he : (view m).isEmpty = false := by
      simp [List.isEmpty_iff, hvm]
    by_cases hvm2 : view (m - 1) = []
    · have hn2 : next_date ∉ dfDates (view (m - 1)) := by simp [hvm2, dfDates]
      have he2 : (view (m - 1)).isEmpty = true := by
        simp [List.isEmpty_iff, hvm2]
      by_cases hc : current_date ∈ dfDates (view m) <;>
        by_cases hn : next_date ∈ dfDates (view m) <;>
          simp [choose_date_interval, scan_visible_dates, hgp, he, he2,
            hc, hn, hn2, hvm]
    · have he2 : (view (m - 1)).isEmpty = false := by
        simp [List.isEmpty_iff, hvm2]
      by_cases hc : current_date ∈ dfDates (view m) <;>
        by_cases hn : next_date ∈ dfDates (view m) <;>
          by_cases hn2 : next_date ∈ dfDates (view (m - 1)) <;>
            simp [choose_date_interval, scan_visible_dates, hgp, he, he2,
              hc, hn, hn2, hvm]

/-- Witness for C4 (amended) at a concrete input: both endpoints visible, so
the selection succeeds with no page-back. -/
theorem choose_date_interval_retry_witness :
    choose_date_interval
      (fun k : ℤ => if k = 0 then [⟨0, 10, true⟩, ⟨1, 5, true⟩] else []) 0 10 5 =
      Except.ok ([10, 5], 0) :=
  (choose_date_interval_retry
    (fun k : ℤ => if k = 0 then [⟨0, 10, true⟩, ⟨1, 5, true⟩] else []) 0 10 5).2.1
    (by decide) (by decide)

/-! ## Lemmas about the block loop -/

lemma downloadLoop_sound (minD bs : ℤ) (hbs : 1 ≤ bs) :
    ∀ (fuel : ℕ) (c : ℤ), (c - minD).toNat < fuel → minD ≤ c →
    ∃ bl cf, downloadLoop minD bs c fuel = some (bl, cf) ∧
      minD ≤ cf ∧ cf - bs ≤ minD ∧
      bl = (List.range bl.length).map
        (fun i : ℕ => (c - (i : ℤ) * bs, c - ((i : ℤ) + 1) * bs)) ∧
      cf = c - (bl.length : ℤ) * bs ∧
      (bl = [] ∨ minD < cf) ∧
      (∀ d : ℤ, bl.countP (fun b => decide (b.2 < d ∧ d ≤ b.1)) +
        (if minD ≤ d ∧ d ≤ cf then 1 else 0) =
        (if minD ≤ d ∧ d ≤ c then 1 else 0)) ∧
      (∀ d : ℤ, (minD ≤ d ∧ d ≤ c) ↔
        ((∃ b ∈ bl, b.2 ≤ d ∧ d ≤ b.1) ∨ (minD ≤ d ∧ d ≤ cf))) := by
  intro fuel
  induction fuel with
  | zero =>
    intro c hf hc
    omega
  | succ fuel ih =>
    intro c hf hc
    by_cases hg : c - bs > minD
    · obtain ⟨bl, cf, hrun, hcf1, hcf2, hshape, hlen, hpos, hcount, hunion⟩ :=
        ih (c - bs) (by omega) (by omega)
      refine ⟨(c, c - bs) :: bl, cf, ?_, hcf1, hcf2, ?_, ?_, ?_, ?_, ?_⟩
      · simp only [downloadLoop, if_pos hg, hrun]
      · rw [List.length_cons, List.range_succ_eq_map, List.map_cons, List.map_map]
        congr 1
        · norm_num
        · conv_lhs => rw [hshape]
          apply List.map_congr_left
          intro i hi
          simp only [Function.comp_apply, Prod.mk.injEq]
          push_cast
          constructor <;> ring
      · rw [List.length_cons, hlen]
        push_cast
        ring
      · right
        rcases hpos with hbl | hlt
        · have hcfe : cf = c - bs := by
            rw [hlen, hbl]
            simp
          omega
        · exact hlt
      · intro d
        have hd := hcount d
        rw [List.countP_cons]
        simp only [decide_eq_true_eq]
        split_ifs at hd ⊢ <;> omega
      · intro d
        have hd := hunion d
        constructor
        · rintro ⟨h1, h2⟩
          by_cases hdc : d ≤ c - bs
          · rcases hd.mp ⟨h1, hdc⟩ with ⟨b, hb, hb2⟩ | hflush
            · exact Or.inl ⟨b, List.mem_cons_of_mem _ hb, hb2⟩
            · exact Or.inr hflush
          · refine Or.inl ⟨(c, c - bs), List.mem_cons_self _ _, ?_, ?_⟩ <;> simp <;> omega
        · rintro (⟨b, hb, hb1, hb2⟩ | hflush)
          · rcases List.mem_cons.mp hb with rfl | hbmem
            · simp only at hb1 hb2
              omega
            · have := hd.mpr (Or.inl ⟨b, hbmem, hb1, hb2⟩)
              omega
          · have := hd.mpr (Or.inr hflush)
            omega
    · refine ⟨[], c, ?_, hc, by omega, by simp, by simp, Or.inl rfl, ?_, ?_⟩
      · simp only [downloadLoop, if_neg hg]
      · intro d
        simp
      · intro d
        simp

lemma sorted_head_le (l : List ℤ) (a : ℤ)
    (hs : List.Sorted (fun x y : ℤ => x ≤ y) l) (ha : l.head? = some a) :
    ∀ d ∈ l, a ≤ d := by
  cases l with
  | nil => cases ha
  | cons x t =>
    intro d hd
    have hax : x = a := by simpa using ha
    subst hax
    rcases List.mem_cons.mp hd with rfl | hdt
    · exact le_refl d
    · exact (List.sorted_cons.mp hs).1 d hdt

lemma sorted_le_getLast : ∀ (l : List ℤ) (b : ℤ),
    List.Sorted (fun x y : ℤ => x ≤ y) l → l.getLast? = some b →
    ∀ d ∈ l, d ≤ b := by
  intro l
  induction l with
  | nil =>
    intro b _ _ d hd
    cases hd
  | cons x t ih =>
    intro b hs hb d hd
    cases t with
    | nil =>
      have hxb : x = b := by simpa using hb
      rcases List.mem_cons.mp hd with rfl | h
      · exact le_of_eq hxb
      · cases h
    | cons y u =>
      have hb2 : (y :: u).getLast? = some b := by
        rwa [List.getLast?_cons_cons] at hb
      have hs2 := (List.sorted_cons.mp hs).2
      rcases List.mem_cons.mp hd with rfl | hdt
      · obtain ⟨hne, rfl⟩ := List.mem_getLast?_eq_getLast hb2
        exact (List.sorted_cons.mp hs).1 _ (List.getLast_mem hne)
      · exact ih b hs2 hb2 d hdt

lemma download_iteration_ok_elim (dates : List ℤ) (minD maxD bs : ℤ) (fuel : ℕ)
    (blocks : List (ℤ × ℤ)) (flush : ℤ × ℤ)
    (hbs : 1 ≤ bs)
    (hh : dates.head? = some minD) (hl : dates.getLast? = some maxD)
    (hs : List.Sorted (fun x y : ℤ => x ≤ y) dates)
    (hfuel : (maxD - minD).toNat < fuel)
    (hrun : download_iteration dates bs fuel = IterResult.ok blocks flush) :
    minD ≤ maxD ∧ flush.2 = minD ∧
    minD ≤ flush.1 ∧ flush.1 - bs ≤ minD ∧
    blocks = (List.range blocks.length).map
      (fun i : ℕ => (maxD - (i : ℤ) * bs, maxD - ((i : ℤ) + 1) * bs)) ∧
    flush.1 = maxD - (blocks.length : ℤ) * bs ∧
    (blocks = [] ∨ minD < flush.1) ∧
    (∀ d : ℤ, blocks.countP (fun b => decide (b.2 < d ∧ d ≤ b.1)) +
      (if minD ≤ d ∧ d ≤ flush.1 then 1 else 0) =
      (if minD ≤ d ∧ d ≤ maxD then 1 else 0)) ∧
    (∀ d : ℤ, (minD ≤ d ∧ d ≤ maxD) ↔
      ((∃ b ∈ blocks, b.2 ≤ d ∧ d ≤ b.1) ∨ (minD ≤ d ∧ d ≤ flush.1))) ∧
    (∀ d ∈ dates, minD ≤ d ∧ d ≤ maxD) := by
  have hmem_min : minD ∈ dates := List.mem_of_mem_head? (by simpa using hh)
  have hbounds : ∀ d ∈ dates, minD ≤ d ∧ d ≤ maxD := fun d hd =>
    ⟨sorted_head_le dates minD hs hh d hd, sorted_le_getLast dates maxD hs hl d hd⟩
  have hminmax : minD ≤ maxD := (hbounds minD hmem_min).2
  obtain ⟨bl, cf, hdl, hcf1, hcf2, hshape, hlen, hpos, hcount, hunion⟩ :=
    downloadLoop_sound minD bs hbs fuel maxD hfuel hminmax
  simp only [download_iteration, hh, hl, hdl] at hrun
  injection hrun with h1 h2
  subst h1
  subst h2
  exact ⟨hminmax, rfl, hcf1, hcf2, hshape, hlen, hpos, hcount, hunion, hbounds⟩

/-! ## Claim theorems: block planning and coverage (C6, C1) -/

/-- Claim C6: for a non-empty sorted available-date list and `block_size ≥ 1`,
`download_iteration` generates blocks by: the cursor starts at the maximum
date; block `i` is `(maxD - i*bs, maxD - (i+1)*bs)` and a block is processed
exactly while `cursor - block_size` is strictly greater than the minimum date
(so `minD < maxD - (i+1)*bs` for every emitted block, and the loop stops as
soon as `lastCursor - bs ≤ minD`); the remainder is handled by one final
selection `(last cursor, minimum date)`.  In particular, if `block_size`
exceeds the full range, the loop body executes zero times and exactly one
selection `(maximum, minimum)` covering the whole range is issued. -/
theorem download_iteration_block_algorithm (dates : List ℤ) (minD maxD bs : ℤ)
    (fuel : ℕ) (blocks : List (ℤ × ℤ)) (flush : ℤ × ℤ)
    (hbs : 1 ≤ bs)
    (hh : dates.head? = some minD) (hl : dates.getLast? = some maxD)
    (hs : List.Sorted (fun x y : ℤ => x ≤ y) dates)
    (hfuel : (maxD - minD).toNat < fuel)
    (hrun : download_iteration dates bs fuel = IterResult.ok blocks flush) :
    blocks = (List.range blocks.length).map
      (fun i : ℕ => (maxD - (i : ℤ) * bs, maxD - ((i : ℤ) + 1) * bs)) ∧
    flush = (maxD - (blocks.length : ℤ) * bs, minD) ∧
    (blocks = [] ∨ minD < maxD - (blocks.length : ℤ) * bs) ∧
    maxD - ((blocks.length : ℤ) + 1) * bs ≤ minD ∧
    (maxD - minD < bs → blocks = [] ∧ flush = (maxD, minD)) := by
  obtain ⟨hminmax, hf2, hcf1, hcf2, hshape, hlen, hpos, hcount, hunion, hbounds⟩ :=
    download_iteration_ok_elim dates minD maxD bs fuel blocks flush
      hbs hh hl hs hfuel hrun
  have hflush : flush = (maxD - (blocks.length : ℤ) * bs, minD) := by
    rw [Prod.ext_iff]
    exact ⟨by rw [← hlen], hf2⟩
  refine ⟨hshape, hflush, ?_, ?_, ?_⟩
  · rcases hpos with h | h
    · exact Or.inl h
    · right
      rw [← hlen]
      exact h
  · have heq : maxD - ((blocks.length : ℤ) + 1) * bs = flush.1 - bs := by
      rw [hlen]
      ring
    rw [heq]
    exact hcf2
  · intro hrange
    have hempty : blocks = [] := by
      by_contra hne
      rcases hpos with h | h
      · exact hne h
      · have hlen1 : 1 ≤ (blocks.length : ℤ) := by
          have := List.length_pos.mpr hne
          omega
        have hb : bs ≤ (blocks.length : ℤ) * bs :=
          le_mul_of_one_le_left (by omega) hlen1
        have hle : flush.1 ≤ maxD - bs := by
          rw [hlen]
          linarith
        linarith
    refine ⟨hempty, ?_⟩
    rw [hflush, hempty]
    norm_num

/-- Witness for C6 at a concrete input: dates `[1, 2, 10]`, block size 3:
loop blocks `(10, 7)` and `(7, 4)`, final flush selection `(4, 1)`. -/
theorem download_iteration_block_algorithm_witness :
    ((4 : ℤ), (1 : ℤ)) =
      (10 - (([((10 : ℤ), (7 : ℤ)), (7, 4)].length : ℤ)) * 3, 1) := by
  have h := download_iteration_block_algorithm [1, 2, 10] 1 10 3 10
    [(10, 7), (7, 4)] (4, 1) (by decide) (by rfl) (by rfl) (by decide)
    (by decide) (by rfl)
  exact h.2.1

/-- Claim C1: for every non-empty sorted list of available dates and every
`block_size ≥ 1`, the date intervals of the blocks processed by
the main loop of `download_iteration`, together with the final flush selection
`(last cursor, minimum date)`, exactly reconstruct the closed interval
`[min, max]` with no available date omitted and no date requested twice.
Consecutive selections share their boundary endpoint (the older endpoint of
a block is re-selected as the newer endpoint of the next selection), so the
shared date is charged to the selection that receives it as older endpoint:
each loop block `(newer, older)` accounts for the half-open interval
`(older, newer]` and the flush selection for the closed interval
`[min, last cursor]`.  Under this accounting every date of `[min, max]` is
covered exactly once and dates outside are covered zero times (first
conjunct), the union of the closed selection intervals is exactly
`[min, max]` (second conjunct), and every available date lies in `[min, max]`
and is therefore covered (third conjunct). -/
theorem download_iteration_coverage (dates : List ℤ) (minD maxD bs : ℤ)
    (fuel : ℕ) (blocks : List (ℤ × ℤ)) (flush : ℤ × ℤ)
    (hbs : 1 ≤ bs)
    (hh : dates.head? = some minD) (hl : dates.getLast? = some maxD)
    (hs : List.Sorted (fun x y : ℤ => x ≤ y) dates)
    (hfuel : (maxD - minD).toNat < fuel)
    (hrun : download_iteration dates bs fuel = IterResult.ok blocks flush) :
    (∀ d : ℤ, blocks.countP (fun b => decide (b.2 < d ∧ d ≤ b.1)) +
      (if flush.2 ≤ d ∧ d ≤ flush.1 then 1 else 0) =
      (if minD ≤ d ∧ d ≤ maxD then 1 else 0)) ∧
    (∀ d : ℤ, (minD ≤ d ∧ d ≤ maxD) ↔
      ((∃ b ∈ blocks, b.2 ≤ d ∧ d ≤ b.1) ∨ (flush.2 ≤ d ∧ d ≤ flush.1))) ∧
    (∀ d ∈ dates, minD ≤ d ∧ d ≤ maxD) := by
  obtain ⟨hminmax, hf2, hcf1, hcf2, hshape, hlen, hpos, hcount, hunion, hbounds⟩ :=
    download_iteration_ok_elim dates minD maxD bs fuel blocks flush
      hbs hh hl hs hfuel hrun
  rw [hf2]
  exact ⟨hcount, hunion, hbounds⟩

/-- Witness for C1 at a concrete input: dates `[1, 2, 10]`, block size 3;
date 7 (the shared endpoint of the selections `(10, 7)` and `(7, 4)`) is
counted exactly once. -/
theorem download_iteration_coverage_witness :
    [((10 : ℤ), (7 : ℤ)), (7, 4)].countP
        (fun b => decide (b.2 < 7 ∧ 7 ≤ b.1)) +
      (if ((4 : ℤ), (1 : ℤ)).2 ≤ 7 ∧ (7 : ℤ) ≤ ((4 : ℤ), (1 : ℤ)).1 then 1 else 0) =
      (if (1 : ℤ) ≤ 7 ∧ (7 : ℤ) ≤ 10 then 1 else 0) := by
  have h := download_iteration_coverage [1, 2, 10] 1 10 3 10
    [(10, 7), (7, 4)] (4, 1) (by decide) (by rfl) (by rfl) (by decide)
    (by decide) (by rfl)
  exact h.1 7

/-! ## Claim theorems: handle lifetime (C8) -/

lemma choose_date_interval_ev_clicks (view : ℕ → List ℤ) (g : ℕ) (c n : ℤ)
    (evs : List ClickEv) (g2 : ℕ)
    (h : choose_date_interval_ev view g c n = Except.ok (evs, g2)) :
    ∀ e ∈ evs, e.snap = e.cur := by
  simp only [choose_date_interval_ev] at h
  split_ifs at h <;>
    simp only [Except.ok.injEq, Prod.mk.injEq] at h <;>
      obtain ⟨h1, -⟩ := h <;>
        subst h1 <;>
          intro e he <;>
            fin_cases he <;>
              rfl

/-- Claim C8: every interactive element handle stored in a `DateAvail` record
is consumed or discarded before the next pagination or navigation call.  In
the generation-instrumented model of `download_iteration` (a navigation,
dialog submission or dialog reopen increments the surface generation and
invalidates handles of earlier snapshots), every click performed during a
successful run uses a handle whose snapshot generation equals the surface
generation at click time: no operation retains a handle across
`goto_prev_month` or across the submit/reopen cycle and uses it afterwards. -/
theorem download_iteration_handles_current (view : ℕ → List ℤ) (minD bs : ℤ) :
    ∀ (fuel : ℕ) (c : ℤ) (g : ℕ) (evs : List ClickEv) (gf : ℕ),
      download_iteration_ev view minD bs c g fuel = some (Except.ok (evs, gf)) →
      ∀ e ∈ evs, e.snap = e.cur := by
  intro fuel
  induction fuel with
  | zero =>
    intro c g evs gf h
    cases h
  | succ fuel ih =>
    intro c g evs gf h
    simp only [download_iteration_ev] at h
    by_cases hg : c - bs > minD
    · rw [if_pos hg] at h
      split at h
      · simp at h
      · rename_i evs1 g1 hch
        split at h
        · rename_i evs2 gf2 hrec
          simp only [Option.some.injEq, Except.ok.injEq, Prod.mk.injEq] at h
          obtain ⟨h1, h2⟩ := h
          subst h1
          subst h2
          intro e he
          rcases List.mem_append.mp he with h12 | he2
          · rcases List.mem_append.mp h12 with he1 | hemid
            · exact choose_date_interval_ev_clicks view g c (c - bs) evs1 g1 hch e he1
            · fin_cases hemid <;> rfl
          · exact ih (c - bs) (g1 + 1) evs2 gf2 hrec e he2
        · rename_i hne
          exact ((hne evs gf h).elim)
    · rw [if_neg hg] at h
      split at h
      · simp at h
      · rename_i evs1 gf1 hch
        simp only [Option.some.injEq, Except.ok.injEq, Prod.mk.injEq] at h
        obtain ⟨h1, h2⟩ := h
        subst h1
        exact choose_date_interval_ev_clicks view (g + 1) c minD evs1 gf1 hch

/-- Witness for C8 at a concrete input: dates 1..10 all visible in every
snapshot, block size 3; the tail flush click (snapshot generation 3 after the
final page-back) is on a live handle. -/
theorem download_iteration_handles_current_witness :
    (ClickEv.mk 3 3).snap = (ClickEv.mk 3 3).cur :=
  download_iteration_handles_current
    (fun _ => [1, 2, 3, 4, 5, 6, 7, 8, 9, 10]) 1 3 10 10 0
    [⟨0, 0⟩, ⟨0, 0⟩, ⟨0, 0⟩, ⟨0, 0⟩, ⟨1, 1⟩, ⟨1, 1⟩, ⟨1, 1⟩, ⟨1, 1⟩, ⟨3, 3⟩, ⟨3, 3⟩]
    3 (by rfl) ⟨3, 3⟩ (by decide)
